import Mathlib

/-!
Verification of the request identity and observability propagation subsystem
of the my-travel-visited-countries backend: traceparent / legacy trace header
parsing, JWKS-cached token verification, structured logging and span creation.

Each Go source function is shallowly embedded as an executable Lean
definition; strings are handled as `String` / `List Char`, Go maps as
association lists with last-write-wins insertion, and the `sync.Once`
guarded cache initialization as a labelled transition system over an
explicit caller list.
-/

namespace TraceparentM

/-- TraceContext from ctxkeys.go: trace ID, span ID and the sampled flag
(documented there as "true when W3C trace flags are 01"). -/
structure TraceContext where
  traceID : String
  spanID : String
  sampled : Bool
  deriving DecidableEq, Repr

/-- Prepend a character to the first field of a split result. -/
def consHead (c : Char) : List (List Char) → List (List Char)
  | [] => [[c]]
  | h :: t => (c :: h) :: t

/-- Character-level model of Go strings.Split with a one-character separator:
splits on every occurrence, yielding n+1 fields for n separators. -/
def splitOnChar (sep : Char) : List Char → List (List Char)
  | [] => [[]]
  | c :: cs =>
    if c = sep then [] :: splitOnChar sep cs
    else consHead c (splitOnChar sep cs)

/-- Hex-digit test from traceparent.go isHex: a rune is accepted when it lies
in 0-9, a-f or A-F; the Go loop rejects on the first offending rune. -/
def isHexChar (r : Char) : Bool :=
  !((r < '0' || r > '9') && (r < 'a' || r > 'f') && (r < 'A' || r > 'F'))

/-- isHex from traceparent.go: every rune of the string is a hex digit
(vacuously true on the empty string, exactly as the Go loop). -/
def isHex (s : List Char) : Bool := s.all isHexChar

/-- ParseTraceparent from traceparent.go: reject the empty header, split on
the dash, require exactly four fields, check the lengths of version / trace
id / span id and that those three fields are hex, and build the TraceContext.
The Go composite literal sets only TraceID and SpanID, so Sampled is left at
its zero value false; the flags field is never inspected. -/
def ParseTraceparent (header : String) : Option TraceContext :=
  if header = "" then none
  else
    match splitOnChar '-' header.data with
    | [version, traceID, spanID, _flags] =>
      if version.length ≠ 2 || traceID.length ≠ 32 || spanID.length ≠ 16 then none
      else if !(isHex traceID) || !(isHex spanID) || !(isHex version) then none
      else some { traceID := String.mk traceID, spanID := String.mk spanID, sampled := false }
    | _ => none

end TraceparentM

namespace TracingM

open TraceparentM (splitOnChar)

/-- Character-level model of Go strings.Contains(s, ";o=") from
ExtractTraceContext: scan left to right for the three-character separator. -/
def containsOE : List Char → Bool
  | ';' :: 'o' :: '=' :: _ => true
  | _ :: cs => containsOE cs
  | [] => false

/-- Character-level model of Go strings.Split(s, ";o=") : split on each
non-overlapping leftmost occurrence of the three-character separator. -/
def splitOnOE : List Char → List (List Char)
  | ';' :: 'o' :: '=' :: rest => [] :: splitOnOE rest
  | c :: cs => TraceparentM.consHead c (splitOnOE cs)
  | [] => [[]]

/-- ExtractTraceContext from the tracing package: parses the legacy
X-Cloud-Trace-Context header TRACE_ID/SPAN_ID;o=TRACE_TRUE. The named Go
return values start at their zero values, so sampled defaults to false on the
early returns; when the span part has no ";o=" segment sampled is set to
true. -/
def ExtractTraceContext (traceHeader : String) : String × String × Bool :=
  if traceHeader = "" then ("", "", false)
  else
    let parts := splitOnChar '/' traceHeader.data
    if parts.length < 2 then ("", "", false)
    else
      let traceID := parts.getD 0 []
      let spanPart := parts.getD 1 []
      if containsOE spanPart then
        let spanParts := splitOnOE spanPart
        let spanID := spanParts.getD 0 []
        let sampled :=
          if spanParts.length > 1 then decide (spanParts.getD 1 [] = ['1']) else false
        (String.mk traceID, String.mk spanID, sampled)
      else
        (String.mk traceID, String.mk spanPart, true)

/-- Model of the tracing Client: an abstract handle to the configured
OpenTelemetry tracer provider; its identity is all the embedding needs. -/
structure Client where
  id : Nat
  deriving DecidableEq

/-- Context model for the tracing package: the client stored under
ctxkeys.TracerKey (none when no span-recording backend is configured) and
the currently active otel span name, set by StartSpan. -/
structure Ctx where
  tracer : Option Client
  activeSpan : Option String
  deriving DecidableEq

/-- FromContext from the tracing package: retrieves the trace client stored
under ctxkeys.TracerKey, nil (none) when absent. -/
def FromContext (ctx : Ctx) : Option Client := ctx.tracer

/-- Model of an otel span handle created by Client.StartSpan. -/
structure OtelSpan where
  name : String
  deriving DecidableEq

/-- Client.StartSpan: starts a span and returns the context carrying it
together with the span handle. -/
def Client.StartSpan (_c : Client) (ctx : Ctx) (name : String) : Ctx × OtelSpan :=
  ({ ctx with activeSpan := some name }, ⟨name⟩)

/-- Span from the tracing package wraps an optional otel span (the embedded
field is nil when tracing is degraded). -/
structure Span where
  span : Option OtelSpan
  deriving DecidableEq

/-- Span.End: calls the underlying otel End only when a span is present; the
returned Bool records whether an underlying End was invoked, so the nil case
is a safe no-op. -/
def Span.End : Span → Bool
  | ⟨some _⟩ => true
  | ⟨none⟩ => false

/-- New from the tracing package: when no client is stored in the context,
degrade gracefully by returning the context unchanged with an empty Span;
otherwise start a real span. -/
def New (ctx : Ctx) (name : String) : Ctx × Span :=
  match FromContext ctx with
  | none => (ctx, ⟨none⟩)
  | some client =>
    let r := client.StartSpan ctx name
    (r.1, ⟨some r.2⟩)

/-- SafeSpan from the tracing package: a nil client argument falls back to
the context's client; when no client exists at all, it warns and still runs
fn on the original context, returning fn's result. -/
def SafeSpan (ctx : Ctx) (client : Option Client) (spanName : String)
    (fn : Ctx → Option String) : Option String :=
  let client' :=
    match client with
    | none => FromContext ctx
    | some c => some c
  match client' with
  | none => fn ctx
  | some c =>
    let r := c.StartSpan ctx spanName
    fn r.1

end TracingM

/-- Model of a Go interface value as passed to variadic logging key-value
parameters and stored in token claims: a string, an error carrying its
message text, or some other value together with its fmt.Sprint rendering. -/
inductive GoValue
  | str (s : String)
  | errV (msg : String)
  | other (rendering : String)
  deriving DecidableEq

/-- fmt.Sprint of a modelled Go value; for an error value Go's fmt prints the
Error() text. -/
def GoValue.sprint : GoValue → String
  | .str s => s
  | .errV m => m
  | .other r => r

namespace LoggingM

open TraceparentM (TraceContext)

/-- Logger from logging.go: project id, optional trace correlation and the
request-scoped labels merged into every entry. Go maps are modelled as
association lists with unique keys (a Go map cannot hold duplicates). -/
structure Logger where
  projectID : String
  traceID : String
  spanID : String
  traceSampled : Bool
  labels : List (String × String)
  deriving DecidableEq

/-- Reading a key from a modelled Go map. -/
def lookupL (m : List (String × String)) (k : String) : Option String :=
  (m.find? (fun kv => kv.1 == k)).map (·.2)

/-- Writing a key into a modelled Go map: overwrite in place when the key is
present, append otherwise. -/
def setLabel (m : List (String × String)) (k v : String) : List (String × String) :=
  if m.any (fun kv => kv.1 == k) then
    m.map (fun kv => if kv.1 == k then (k, v) else kv)
  else m ++ [(k, v)]

/-- copyLabels from logging.go: nil for an empty map, else a fresh copy. -/
def copyLabels (m : List (String × String)) : List (String × String) :=
  if m.length = 0 then [] else m

/-- mergeLabels from logging.go: nil when both maps are empty; otherwise the
logger labels are written into the result first and the per-call field
labels after them, so colliding per-call fields override logger labels. -/
def mergeLabels (loggerLabels fieldLabels : List (String × String)) :
    List (String × String) :=
  if loggerLabels.length + fieldLabels.length = 0 then []
  else fieldLabels.foldl (fun out kv => setLabel out kv.1 kv.2) loggerLabels

/-- WithTraceFromContext from logging.go: a fresh logger keeping project id
and a copy of the labels; trace correlation is taken over only when the
context carries a TraceContext with a nonempty trace id. The nil-receiver
short-circuit of the Go method concerns only absent loggers and is outside
this per-value model. -/
def Logger.WithTraceFromContext (l : Logger) (ctxTC : Option TraceContext) : Logger :=
  let out : Logger :=
    { projectID := l.projectID, traceID := "", spanID := "", traceSampled := false,
      labels := copyLabels l.labels }
  match ctxTC with
  | some tc =>
    if tc.traceID ≠ "" then
      { out with traceID := tc.traceID, spanID := tc.spanID, traceSampled := tc.sampled }
    else out
  | none => out

/-- The pair-collection loop of WithParams: even-indexed entries must be
string keys (other keys skip the pair); error values render as their message,
other values via fmt.Sprint. -/
def buildParamPairs : List GoValue → List (String × String)
  | GoValue.str k :: v :: rest =>
    (k, match v with | GoValue.errV m => m | v => v.sprint) :: buildParamPairs rest
  | _ :: _ :: rest => buildParamPairs rest
  | _ => []

/-- WithParams from logging.go: odd-length key-value lists return the logger
unchanged, as does an empty collected pair map; otherwise a new logger is
built whose labels are the old ones merged with the collected pairs. -/
def Logger.WithParams (l : Logger) (keyValues : List GoValue) : Logger :=
  if keyValues.length % 2 ≠ 0 then l
  else
    let extra := buildParamPairs keyValues
    if extra.length = 0 then l
    else
      { projectID := l.projectID, traceID := l.traceID, spanID := l.spanID,
        traceSampled := l.traceSampled, labels := mergeLabels l.labels extra }

/-- The pair-collection loop of buildFieldsFromKeyValues: like the WithParams
loop but keeping the values, with error values replaced by their message. -/
def buildFieldPairs : List GoValue → List (String × GoValue)
  | GoValue.str k :: v :: rest =>
    (k, match v with | GoValue.errV m => GoValue.str m | v => v) :: buildFieldPairs rest
  | _ :: _ :: rest => buildFieldPairs rest
  | _ => []

/-- buildFieldsFromKeyValues from logging.go: nil on odd-length input, else
the collected pairs. -/
def buildFieldsFromKeyValues (keyValues : List GoValue) : List (String × GoValue) :=
  if keyValues.length % 2 ≠ 0 then [] else buildFieldPairs keyValues

/-- fieldsToLabelStrings from logging.go: per-call fields rendered to a
string-only map for Cloud Logging labels, errors as their message text. -/
def fieldsToLabelStrings (fields : List (String × GoValue)) : List (String × String) :=
  fields.map (fun kv => (kv.1, match kv.2 with | GoValue.errV m => m | v => v.sprint))

/-- One emitted structured record, as marshalled by writeLog: severity,
message, timestamp, trace reference, span id, sampled flag and merged
labels. -/
structure LogEntry where
  severity : String
  message : String
  timestamp : String
  trace : String
  spanId : String
  traceSampled : Bool
  labels : List (String × String)
  deriving DecidableEq

/-- writeLog from logging.go (second, label-carrying revision): build the
entry, take over span id / sampled flag and render the trace reference when
the logger carries a trace id, and merge the request-scoped labels with the
per-call field labels. The wall clock is passed in as the rendered
timestamp. -/
def Logger.writeLog (l : Logger) (severity message now : String)
    (fields : List (String × GoValue)) : LogEntry :=
  let entry : LogEntry :=
    { severity := severity, message := message, timestamp := now,
      trace := "", spanId := "", traceSampled := false, labels := [] }
  let entry :=
    if l.traceID ≠ "" then
      { entry with
        spanId := l.spanID
        traceSampled := l.traceSampled
        trace :=
          if l.projectID ≠ "" then
            "projects/" ++ l.projectID ++ "/traces/" ++ l.traceID
          else entry.trace }
    else entry
  { entry with labels := mergeLabels l.labels (fieldsToLabelStrings fields) }

/-- Logger.Info from logging.go: log at severity INFO with optional
structured key-value pairs. -/
def Logger.Info (l : Logger) (msg now : String) (keyValues : List GoValue) : LogEntry :=
  l.writeLog "INFO" msg now (buildFieldsFromKeyValues keyValues)

end LoggingM

namespace AuthM

/-- Verified Firebase claims from firebase.go: subject plus best-effort
name, email and picture (Go zero value "" when absent or non-string). -/
structure Claims where
  sub : String
  name : String
  email : String
  picture : String
  deriving DecidableEq

/-- The payload of a signature-verified token as the jwx library exposes it:
issuer, audience, temporal claims in seconds, subject, and the optional
identity claims as raw Go values. -/
structure JWTClaims where
  iss : String
  aud : String
  exp : Int
  nbf : Int
  sub : String
  name : Option GoValue
  email : Option GoValue
  picture : Option GoValue
  deriving DecidableEq

/-- Authenticator configuration as NewAuthenticator builds it. -/
structure Authenticator where
  projectID : String
  issuer : String
  audience : String
  deriving DecidableEq

/-- NewAuthenticator from firebase.go: fails on an empty project id; the
effective project is firebaseProjectID when provided, else projectID; issuer
is https://securetoken.google.com/<effective> and audience the effective
project id. -/
def NewAuthenticator (projectID firebaseProjectID : String) : Option Authenticator :=
  if projectID = "" then none
  else
    let effective := if firebaseProjectID ≠ "" then firebaseProjectID else projectID
    some { projectID := projectID,
           issuer := "https://securetoken.google.com/" ++ effective,
           audience := effective }

/-- The 1-minute acceptable clock skew of VerifyIDToken, in seconds. -/
def acceptableSkew : Int := 60

/-- Modelled from the spec: the claim validation that jwt.Parse performs
inside the jwx library, which is not part of this repository's source. With
jwt.WithValidate(true), jwt.WithIssuer, jwt.WithAudience and
jwt.WithAcceptableSkew(skew), a signature-valid token is accepted exactly
when its expiry and not-before claims hold within the skew tolerance applied
symmetrically and its issuer and audience match the expected values. -/
def jwtValidate (expectedIss expectedAud : String) (skew now : Int)
    (c : JWTClaims) : Except String Unit :=
  if c.exp + skew < now then .error "exp not satisfied"
  else if now < c.nbf - skew then .error "nbf not satisfied"
  else if c.iss ≠ expectedIss then .error "iss not satisfied"
  else if c.aud ≠ expectedAud then .error "aud not satisfied"
  else .ok ()

/-- Externally observable I/O steps of one VerifyIDToken call: cache
initialization (ensureCache), key-set retrieval (cache.Get) and the jwt
parse itself. -/
inductive AuthEvent
  | cacheInit
  | keySetGet
  | jwtParse
  deriving DecidableEq

/-- Environment of one VerifyIDToken call: the outcome of cache
initialization, of the key-set fetch, the signature-verified claims the jwx
parser would produce (none when the token is structurally malformed or its
signature fails), and the verifier's wall clock in seconds. -/
structure VerifyEnv where
  ensureCacheErr : Option String
  getKeysErr : Option String
  signedClaims : Option JWTClaims
  now : Int
  deriving DecidableEq

/-- The claim-extraction tail of VerifyIDToken: subject always; name, email
and picture only when present and string-typed. -/
def claimsOf (c : JWTClaims) : Claims :=
  { sub := c.sub
    name := match c.name with | some (GoValue.str s) => s | _ => ""
    email := match c.email with | some (GoValue.str s) => s | _ => ""
    picture := match c.picture with | some (GoValue.str s) => s | _ => "" }

/-- VerifyIDToken from firebase.go, instrumented with its I/O event trace:
the empty token is rejected first, then ensureCache, cache.Get and jwt.Parse
(validation included) run in order, each aborting on error. -/
def VerifyIDToken (a : Authenticator) (env : VerifyEnv) (idToken : String) :
    Except String Claims × List AuthEvent :=
  if idToken = "" then (.error "token is empty", [])
  else
    match env.ensureCacheErr with
    | some e => (.error ("jwks cache: " ++ e), [.cacheInit])
    | none =>
      match env.getKeysErr with
      | some e => (.error ("get jwks: " ++ e), [.cacheInit, .keySetGet])
      | none =>
        match env.signedClaims with
        | none =>
          (.error "verify token: failed to parse or verify signature",
            [.cacheInit, .keySetGet, .jwtParse])
        | some c =>
          match jwtValidate a.issuer a.audience acceptableSkew env.now c with
          | .error e => (.error ("verify token: " ++ e), [.cacheInit, .keySetGet, .jwtParse])
          | .ok _ => (.ok (claimsOf c), [.cacheInit, .keySetGet, .jwtParse])

/-- Modelled from the spec: the structural-envelope notion used by the spec
("three dot-separated segments minimum for the common case"); a token is
structurally malformed when its dot-split does not have three segments. -/
def specStructurallyMalformed (tok : String) : Bool :=
  (TraceparentM.splitOnChar '.' tok.data).length ≠ 3

end AuthM

namespace OnceM

/-- State of the sync.Once guarding ensureCache: not yet entered, body
executing, or completed. -/
inductive OncePhase
  | idle
  | running
  | done
  deriving DecidableEq

/-- One VerifyIDToken caller's progress through ensureCache: not yet at the
Once, executing the body (the winner of the Once), parked inside
sync.Once.Do waiting for the body to finish, or returned carrying
ensureCache's result (the stored cacheErr). -/
inductive CallerPhase
  | notStarted
  | runnerP
  | blocked
  | finished (ret : Option String)
  deriving DecidableEq

/-- Whole-process state of one Authenticator: the Once guard, how often the
initialization body ran (cache creation + Register), how many Refresh
network fetches occurred, the stored cacheErr, and every caller so far. -/
structure OnceSys where
  once : OncePhase
  initRuns : Nat
  fetchCalls : Nat
  cacheErr : Option String
  callers : List CallerPhase
  deriving DecidableEq

/-- A fresh process: Once untouched, nothing fetched, no error, no
callers. -/
def initSys : OnceSys := ⟨.idle, 0, 0, none, []⟩

/-- cacheErr as the body computes it: Register's error when registration
fails (in which case Refresh is skipped), else the first Refresh's error. -/
def bodyOutcome (regErr fetchErr : Option String) : Option String :=
  match regErr with
  | some e => some e
  | none => fetchErr

/-- Interleaved small-step semantics of concurrent ensureCache calls against
one Authenticator. spawn: a new VerifyIDToken call reaches ensureCache.
enter / enterBlocked / enterDone: sync.Once.Do's entry protocol — only a
caller arriving at the idle Once runs the body, callers arriving while it
runs are parked, callers arriving after completion return immediately with
the stored result. body: the winner executes the initialization (Register,
then Refresh only when registration succeeded, with nondeterministic
environment outcomes), stores cacheErr and publishes done. wake: a parked
caller resumes after done. -/
inductive OnceStep : OnceSys → OnceSys → Prop
  | spawn (s : OnceSys) :
      OnceStep s { s with callers := s.callers ++ [.notStarted] }
  | enter (s : OnceSys) (l1 l2 : List CallerPhase) :
      s.once = .idle → s.callers = l1 ++ .notStarted :: l2 →
      OnceStep s { s with once := .running, callers := l1 ++ .runnerP :: l2 }
  | enterBlocked (s : OnceSys) (l1 l2 : List CallerPhase) :
      s.once = .running → s.callers = l1 ++ .notStarted :: l2 →
      OnceStep s { s with callers := l1 ++ .blocked :: l2 }
  | enterDone (s : OnceSys) (l1 l2 : List CallerPhase) :
      s.once = .done → s.callers = l1 ++ .notStarted :: l2 →
      OnceStep s { s with callers := l1 ++ .finished s.cacheErr :: l2 }
  | body (s : OnceSys) (l1 l2 : List CallerPhase) (regErr fetchErr : Option String) :
      s.callers = l1 ++ .runnerP :: l2 →
      OnceStep s { s with
        once := .done
        initRuns := s.initRuns + 1
        fetchCalls := s.fetchCalls + (if regErr = none then 1 else 0)
        cacheErr := bodyOutcome regErr fetchErr
        callers := l1 ++ .finished (bodyOutcome regErr fetchErr) :: l2 }
  | wake (s : OnceSys) (l1 l2 : List CallerPhase) :
      s.once = .done → s.callers = l1 ++ .blocked :: l2 →
      OnceStep s { s with callers := l1 ++ .finished s.cacheErr :: l2 }

/-- The states a process can reach from startup. -/
inductive OnceReachable : OnceSys → Prop
  | init : OnceReachable initSys
  | step {s t : OnceSys} : OnceReachable s → OnceStep s t → OnceReachable t

/-- Number of callers currently executing the Once body. -/
def runners (l : List CallerPhase) : Nat :=
  l.countP (fun p => decide (p = CallerPhase.runnerP))

/-- Inductive invariant of the ensureCache transition system: the body runs
at most once, fetches happen only inside body runs, the guard phases
constrain runner count and stored error, and a finished caller exists only
once the guard is done and carries exactly the stored cacheErr. -/
def Inv (s : OnceSys) : Prop :=
  s.initRuns ≤ 1 ∧ s.fetchCalls ≤ s.initRuns ∧
  (s.once = .idle → s.initRuns = 0 ∧ runners s.callers = 0 ∧ s.cacheErr = none) ∧
  (s.once = .running → s.initRuns = 0 ∧ runners s.callers = 1 ∧ s.cacheErr = none) ∧
  (s.once = .done → runners s.callers = 0) ∧
  (∀ r, CallerPhase.finished r ∈ s.callers → s.once = .done ∧ r = s.cacheErr)

end OnceM

namespace TraceparentM

/-- Claim C1: evaluating ParseTraceparent at the structured trace header of
the end-to-end scenario. The trace id and span id are extracted exactly as
specified, but the returned TraceContext has Sampled = false even though the
flags field is "01": the Go composite literal in ParseTraceparent never
assigns Sampled, contradicting the TraceContext field's own documentation
("true when W3C trace flags are 01"). -/
theorem parseTraceparent_spec_header_sampled_false :
    ParseTraceparent "00-4bf92f3577b34da6a3ce929d0e0e4736-00f067aa0ba902b7-01" =
      some { traceID := "4bf92f3577b34da6a3ce929d0e0e4736",
             spanID := "00f067aa0ba902b7", sampled := false } := by
  decide

/-- Claim C7, counterexample: a header whose flags field "XYZ" is neither hex
nor of length 2 — so it deviates from the version-traceid-spanid-flags
fixed-width-hex shape — is still parsed to a present TraceContext, because
ParseTraceparent never validates the flags field. -/
theorem parseTraceparent_unvalidated_flags_field :
    ¬(isHex "XYZ".data = true ∧ "XYZ".length = 2) ∧
    ParseTraceparent "00-4bf92f3577b34da6a3ce929d0e0e4736-00f067aa0ba902b7-XYZ" ≠ none := by
  decide

/-- Claim C7 (amended): ParseTraceparent is total by construction, and for
every header it either returns none or the header is nonempty, splits on the
dash into exactly four fields whose version / trace id / span id components
have lengths 2 / 32 / 16 and are hex, and the result carries exactly those
trace and span ids (with Sampled false). Hence any deviation in field count
or in the three checked fields yields absent; only the flags field goes
unchecked. -/
theorem parseTraceparent_characterization (header : String) :
    ParseTraceparent header = none ∨
      ∃ version traceID spanID flags,
        header ≠ "" ∧
        splitOnChar '-' header.data = [version, traceID, spanID, flags] ∧
        version.length = 2 ∧ traceID.length = 32 ∧ spanID.length = 16 ∧
        isHex version = true ∧ isHex traceID = true ∧ isHex spanID = true ∧
        ParseTraceparent header =
          some { traceID := String.mk traceID, spanID := String.mk spanID, sampled := false } := by
  unfold ParseTraceparent
  split
  · exact Or.inl rfl
  next hne =>
    split
    next version traceID spanID flags heq =>
      split
      next hlen => exact Or.inl rfl
      next hlen =>
        split
        next hhex => exact Or.inl rfl
        next hhex =>
          simp only [Bool.or_eq_true, decide_eq_true_eq, not_or, Bool.not_eq_true'] at hlen hhex
          exact Or.inr ⟨version, traceID, spanID, flags, hne, heq,
            by omega, by omega, by omega,
            eq_true_of_ne_false hhex.2, eq_true_of_ne_false hhex.1.1,
            eq_true_of_ne_false hhex.1.2, rfl⟩
    next => exact Or.inl rfl

end TraceparentM

namespace TracingM

open TraceparentM (splitOnChar)

/-- Splitting a separator-free field yields exactly that field. -/
theorem splitOnChar_not_mem {sep : Char} {l : List Char} (h : sep ∉ l) :
    splitOnChar sep l = [l] := by
  induction l with
  | nil => rfl
  | cons c cs ih =>
    have hc : ¬c = sep := fun hcs => h (hcs ▸ List.mem_cons_self c cs)
    have hcs : sep ∉ cs := fun hm => h (List.mem_cons_of_mem c hm)
    rw [splitOnChar, if_neg hc, ih hcs, TraceparentM.consHead]

/-- Splitting past a first separator preceded by a separator-free field
peels off that field. -/
theorem splitOnChar_append {sep : Char} {xs : List Char} (ys : List Char) (h : sep ∉ xs) :
    splitOnChar sep (xs ++ sep :: ys) = xs :: splitOnChar sep ys := by
  induction xs with
  | nil => simp [splitOnChar]
  | cons c cs ih =>
    have hc : ¬c = sep := fun hcs => h (hcs ▸ List.mem_cons_self c cs)
    have hcs : sep ∉ cs := fun hm => h (List.mem_cons_of_mem c hm)
    show splitOnChar sep (c :: (cs ++ sep :: ys)) = (c :: cs) :: splitOnChar sep ys
    rw [splitOnChar, if_neg hc, ih hcs, TraceparentM.consHead]

/-- Claim C2: the legacy header 105445aa7843bc8bf206b120001000/0;o=1 parses to
trace id 105445aa7843bc8bf206b120001000, span id 0 and sampled = true; the
same header with ;o=0 yields sampled = false; and every legacy header of the
form traceid/spanid with no ";o=" segment at all defaults to sampled = true. -/
theorem extractTraceContext_legacy_header :
    ExtractTraceContext "105445aa7843bc8bf206b120001000/0;o=1" =
      ("105445aa7843bc8bf206b120001000", "0", true) ∧
    ExtractTraceContext "105445aa7843bc8bf206b120001000/0;o=0" =
      ("105445aa7843bc8bf206b120001000", "0", false) ∧
    ∀ (header : String) (t s : List Char),
      header.data = t ++ '/' :: s → '/' ∉ t → '/' ∉ s → containsOE s = false →
      ExtractTraceContext header = (String.mk t, String.mk s, true) := by
  refine ⟨by decide, by decide, ?_⟩
  intro header t s hdata ht hs hoe
  have hne : header ≠ "" := by
    intro h
    rw [h] at hdata
    exact absurd hdata.symm (by simp)
  unfold ExtractTraceContext
  rw [if_neg hne, hdata, splitOnChar_append s ht, splitOnChar_not_mem hs]
  simp [hoe]

/-- Claim C2 witness: the universal no-";o=" clause instantiated at the
concrete legacy header abc/def. -/
theorem extractTraceContext_legacy_header_witness :
    ExtractTraceContext "abc/def" = ("abc", "def", true) := by
  exact extractTraceContext_legacy_header.2.2 "abc/def" ['a', 'b', 'c'] ['d', 'e', 'f']
    (by decide) (by decide) (by decide) (by decide)

/-- Claim C9: for a context carrying no trace client, span creation never
fails the caller: New returns the unchanged context together with a no-op
span handle whose End is safe to call (it invokes no underlying otel End),
and SafeSpan still runs the wrapped function and returns its result. -/
theorem tracing_degrades_without_client (ctx : Ctx) (name : String)
    (h : ctx.tracer = none) :
    New ctx name = (ctx, ⟨none⟩) ∧
    Span.End ⟨none⟩ = false ∧
    ∀ fn : Ctx → Option String, SafeSpan ctx none name fn = fn ctx := by
  refine ⟨?_, rfl, ?_⟩ <;> simp [New, SafeSpan, FromContext, h]

/-- Claim C9 witness: the degradation theorem applied at a concrete empty
context and a failing wrapped function. -/
theorem tracing_degrades_without_client_witness :
    New ⟨none, none⟩ "database::Fetch" = (⟨none, none⟩, ⟨none⟩) ∧
    SafeSpan ⟨none, none⟩ none "database::Fetch" (fun _ => some "boom") = some "boom" := by
  have h := tracing_degrades_without_client ⟨none, none⟩ "database::Fetch" rfl
  exact ⟨h.1, h.2.2 _⟩

end TracingM

namespace LoggingM

/-- Writing a key that is present somewhere in the map makes it read back. -/
theorem lookupL_map_set {m : List (String × String)} {k v : String}
    (h : m.any (fun kv => kv.1 == k) = true) :
    lookupL (m.map (fun kv => if kv.1 == k then (k, v) else kv)) k = some v := by
  induction m with
  | nil => simp at h
  | cons c rest ih =>
    by_cases hc : c.1 = k
    · simp [lookupL, List.find?, hc]
    · have hc' : (c.1 == k) = false := by simp [hc]
      have hrest : rest.any (fun kv => kv.1 == k) = true := by
        simpa [List.any_cons, hc'] using h
      simpa [lookupL, List.find?, hc'] using ih hrest

/-- Appending a fresh key to a map where it is absent makes it read back. -/
theorem lookupL_append_fresh {m : List (String × String)} {k v : String}
    (h : m.any (fun kv => kv.1 == k) = false) :
    lookupL (m ++ [(k, v)]) k = some v := by
  induction m with
  | nil => simp [lookupL, List.find?]
  | cons c rest ih =>
    have hc : (c.1 == k) = false := by
      by_contra hb
      simp only [List.any_cons, Bool.or_eq_false_iff] at h
      exact hb h.1
    have hrest : rest.any (fun kv => kv.1 == k) = false := by
      simp only [List.any_cons, Bool.or_eq_false_iff] at h
      exact h.2
    simpa [lookupL, List.find?, hc] using ih hrest

/-- setLabel makes the written key read back its new value. -/
theorem lookupL_setLabel_self (m : List (String × String)) (k v : String) :
    lookupL (setLabel m k v) k = some v := by
  unfold setLabel
  by_cases h : m.any (fun kv => kv.1 == k) = true
  · rw [if_pos h]
    exact lookupL_map_set h
  · rw [if_neg h]
    exact lookupL_append_fresh (Bool.eq_false_iff.mpr h)

/-- Overwriting a different key in place leaves k's value unchanged. -/
theorem lookupL_map_set_ne {kw k : String} (m : List (String × String)) (v : String)
    (hne : kw ≠ k) :
    lookupL (m.map (fun kv => if kv.1 == kw then (kw, v) else kv)) k = lookupL m k := by
  induction m with
  | nil => rfl
  | cons c rest ih =>
    by_cases hc : c.1 = kw
    · have hcw : (c.1 == kw) = true := by simp [hc]
      have hck : (c.1 == k) = false := by simp [hc, hne]
      have hkwk : (kw == k) = false := by simp [hne]
      simpa [lookupL, List.find?, hcw, hck, hkwk] using ih
    · have hcw : (c.1 == kw) = false := by simp [hc]
      by_cases hck : c.1 = k
      · have hck' : (c.1 == k) = true := by simp [hck]
        simp [lookupL, List.find?, hcw, hck']
      · have hck' : (c.1 == k) = false := by simp [hck]
        simpa [lookupL, List.find?, hcw, hck'] using ih

/-- Appending a different key leaves k's value unchanged. -/
theorem lookupL_append_ne {kw k : String} (m : List (String × String)) (v : String)
    (hne : kw ≠ k) : lookupL (m ++ [(kw, v)]) k = lookupL m k := by
  induction m with
  | nil =>
    have : (kw == k) = false := by simp [hne]
    simp [lookupL, List.find?, this]
  | cons c rest ih =>
    by_cases hck : c.1 = k
    · have hck' : (c.1 == k) = true := by simp [hck]
      simp [lookupL, List.find?, hck']
    · have hck' : (c.1 == k) = false := by simp [hck]
      simpa [lookupL, List.find?, hck'] using ih

/-- setLabel leaves every other key unchanged. -/
theorem lookupL_setLabel_ne {kw k : String} (m : List (String × String)) (v : String)
    (hne : kw ≠ k) : lookupL (setLabel m kw v) k = lookupL m k := by
  unfold setLabel
  split
  · exact lookupL_map_set_ne m v hne
  · exact lookupL_append_ne m v hne

/-- Folding setLabel over fields that never mention k leaves k's value. -/
theorem lookupL_fold_not_mem {fl : List (String × String)} {k : String}
    (h : ∀ p ∈ fl, p.1 ≠ k) (m : List (String × String)) :
    lookupL (fl.foldl (fun out kv => setLabel out kv.1 kv.2) m) k = lookupL m k := by
  induction fl generalizing m with
  | nil => rfl
  | cons c rest ih =>
    rw [List.foldl_cons, ih (fun p hp => h p (List.mem_cons_of_mem c hp))]
    exact lookupL_setLabel_ne m c.2 (h c (List.mem_cons_self c rest))

/-- Folding setLabel over duplicate-free fields containing k yields the
field value for k, whatever the initial map. -/
theorem lookupL_fold_found {fl : List (String × String)} {k v : String}
    (hnd : (fl.map Prod.fst).Nodup) (h : lookupL fl k = some v)
    (m : List (String × String)) :
    lookupL (fl.foldl (fun out kv => setLabel out kv.1 kv.2) m) k = some v := by
  induction fl generalizing m with
  | nil => simp [lookupL] at h
  | cons c rest ih =>
    rw [List.map_cons, List.nodup_cons] at hnd
    by_cases hc : c.1 = k
    · have hv : c.2 = v := by
        have : (c.1 == k) = true := by simp [hc]
        simpa [lookupL, List.find?, this] using h
      have hrest : ∀ p ∈ rest, p.1 ≠ k := by
        intro p hp hpk
        exact hnd.1 (by rw [hc, ← hpk]; exact List.mem_map_of_mem Prod.fst hp)
      rw [List.foldl_cons, lookupL_fold_not_mem hrest, hc, hv]
      exact lookupL_setLabel_self m k v
    · have hc' : (c.1 == k) = false := by simp [hc]
      have h' : lookupL rest k = some v := by simpa [lookupL, List.find?, hc'] using h
      rw [List.foldl_cons]
      exact ih hnd.2 h' _

/-- A colliding key in the per-call fields wins in mergeLabels. -/
theorem lookupL_mergeLabels_field {ll fl : List (String × String)} {k v : String}
    (hnd : (fl.map Prod.fst).Nodup) (h : lookupL fl k = some v) :
    lookupL (mergeLabels ll fl) k = some v := by
  unfold mergeLabels
  have hfl : fl ≠ [] := by
    intro he
    rw [he] at h
    simp [lookupL] at h
  rw [if_neg (by simp [List.length_eq_zero, hfl])]
  exact lookupL_fold_found hnd h ll

/-- A key absent from the per-call fields keeps its logger-label value in
mergeLabels. -/
theorem lookupL_mergeLabels_scope {ll fl : List (String × String)} {k : String}
    (h : ∀ p ∈ fl, p.1 ≠ k) :
    lookupL (mergeLabels ll fl) k = lookupL ll k := by
  unfold mergeLabels
  split
  next hz =>
    have : ll = [] := by
      rw [Nat.add_eq_zero] at hz
      exact List.length_eq_zero.mp hz.1
    simp [this]
  next => exact lookupL_fold_not_mem h ll

/-- Claim C6, counterexample: a logger whose scope-derived label
current_user_id is "scope-user" emits an entry with a colliding per-call
field current_user_id = "call-user"; the merged label set of the emitted
entry carries the caller-passed value, not the scope-derived one — the
opposite of the claimed override direction. -/
theorem writeLog_collision_counterexample :
    lookupL ((Logger.writeLog
        { projectID := "p", traceID := "", spanID := "", traceSampled := false,
          labels := [("current_user_id", "scope-user")] }
        "INFO" "msg" "2026-01-01T00:00:00Z"
        [("current_user_id", GoValue.str "call-user")]).labels) "current_user_id"
      = some "call-user" ∧ ("call-user" : String) ≠ "scope-user" := by
  decide

/-- Claim C6 (amended): when a log entry is emitted with per-call structured
fields whose keys collide with the logger's scope-derived labels, the merged
label set contains the caller-passed value for each colliding key:
scope-derived labels are merged with, and may be overridden by, per-call
fields (mergeLabels writes logger labels first and fields after them). -/
theorem writeLog_merged_labels_caller_wins (l : Logger) (sev msg now : String)
    (fields : List (String × GoValue)) (k v : String)
    (hnd : ((fieldsToLabelStrings fields).map Prod.fst).Nodup)
    (hk : lookupL (fieldsToLabelStrings fields) k = some v) :
    lookupL (l.writeLog sev msg now fields).labels k = some v := by
  show lookupL (mergeLabels l.labels (fieldsToLabelStrings fields)) k = some v
  exact lookupL_mergeLabels_field hnd hk

/-- Claim C6 witness: the amended override direction evaluated at a concrete
collision on user_id. -/
theorem writeLog_merged_labels_caller_wins_witness :
    lookupL ((Logger.writeLog
        { projectID := "p", traceID := "", spanID := "", traceSampled := false,
          labels := [("user_id", "scope")] }
        "INFO" "m" "ts" [("user_id", GoValue.str "call")]).labels) "user_id"
      = some "call" := by
  exact writeLog_merged_labels_caller_wins
    { projectID := "p", traceID := "", spanID := "", traceSampled := false,
      labels := [("user_id", "scope")] }
    "INFO" "m" "ts" [("user_id", GoValue.str "call")] "user_id" "call"
    (by decide) (by decide)

/-- Claim C8: deriving a logger via WithParams (attaching a label such as the
current-user id) or WithTraceFromContext (attaching trace correlation)
produces a new logger value carrying the original's other fields unchanged;
the derived logger includes the attached label or trace in every emitted
record whose per-call fields do not themselves use that key, while records
emitted through the original logger continue to omit it. -/
theorem logger_derivation_no_shared_state (l : Logger) (k v sev msg now : String)
    (fields : List (String × GoValue)) (tc : TraceparentM.TraceContext)
    (hl : lookupL l.labels k = none)
    (hf : ∀ p ∈ fieldsToLabelStrings fields, p.1 ≠ k)
    (htc : tc.traceID ≠ "") (hltr : l.traceID = "") :
    ((l.WithParams [GoValue.str k, GoValue.str v]).projectID = l.projectID ∧
     (l.WithParams [GoValue.str k, GoValue.str v]).traceID = l.traceID ∧
     (l.WithParams [GoValue.str k, GoValue.str v]).spanID = l.spanID ∧
     (l.WithParams [GoValue.str k, GoValue.str v]).traceSampled = l.traceSampled ∧
     lookupL ((l.WithParams [GoValue.str k, GoValue.str v]).writeLog sev msg now fields).labels k
       = some v) ∧
    lookupL (l.writeLog sev msg now fields).labels k = none ∧
    ((l.WithTraceFromContext (some tc)).traceID = tc.traceID ∧
     (l.WithTraceFromContext (some tc)).spanID = tc.spanID ∧
     (l.WithTraceFromContext (some tc)).traceSampled = tc.sampled ∧
     (l.WithTraceFromContext (some tc)).projectID = l.projectID ∧
     ((l.WithTraceFromContext (some tc)).writeLog sev msg now fields).spanId = tc.spanID ∧
     (l.writeLog sev msg now fields).spanId = "" ∧
     (l.writeLog sev msg now fields).trace = "") := by
  have hWP : l.WithParams [GoValue.str k, GoValue.str v]
      = { projectID := l.projectID, traceID := l.traceID, spanID := l.spanID,
          traceSampled := l.traceSampled, labels := mergeLabels l.labels [(k, v)] } := by
    simp [Logger.WithParams, buildParamPairs, GoValue.sprint]
  have hWT : l.WithTraceFromContext (some tc)
      = { projectID := l.projectID, traceID := tc.traceID, spanID := tc.spanID,
          traceSampled := tc.sampled, labels := copyLabels l.labels } := by
    simp [Logger.WithTraceFromContext, htc]
  refine ⟨?_, ?_, ?_⟩
  · rw [hWP]
    refine ⟨rfl, rfl, rfl, rfl, ?_⟩
    show lookupL (mergeLabels (mergeLabels l.labels [(k, v)])
      (fieldsToLabelStrings fields)) k = some v
    rw [lookupL_mergeLabels_scope hf]
    exact lookupL_mergeLabels_field (by simp) (by simp [lookupL, List.find?])
  · show lookupL (mergeLabels l.labels (fieldsToLabelStrings fields)) k = none
    rw [lookupL_mergeLabels_scope hf]
    exact hl
  · rw [hWT]
    refine ⟨rfl, rfl, rfl, rfl, ?_, ?_, ?_⟩
    · simp [Logger.writeLog, htc]
    · simp [Logger.writeLog, hltr]
    · simp [Logger.writeLog, hltr]

/-- Claim C8 witness: derivation evaluated at a concrete base logger, label
current_user_id = u123 and trace context. -/
theorem logger_derivation_no_shared_state_witness :
    lookupL ((Logger.WithParams ⟨"p", "", "", false, []⟩
        [GoValue.str "current_user_id", GoValue.str "u123"]).writeLog
        "INFO" "m" "ts" []).labels "current_user_id" = some "u123" ∧
    lookupL ((⟨"p", "", "", false, []⟩ : Logger).writeLog "INFO" "m" "ts" []).labels
      "current_user_id" = none := by
  have h := logger_derivation_no_shared_state ⟨"p", "", "", false, []⟩ "current_user_id" "u123"
    "INFO" "m" "ts" [] ⟨"abc", "def", true⟩ (by decide) (by simp [fieldsToLabelStrings])
    (by decide) rfl
  exact ⟨h.1.2.2.2.2, h.2.1⟩

end LoggingM

namespace AuthM

/-- Claim C3, counterexample: the non-empty, structurally malformed token
"x" (one dot-separated segment instead of three) is rejected, but only after
the key cache has been initialized and the key set fetched: the I/O trace of
VerifyIDToken contains the cache accesses the claim forbids. -/
theorem verifyIDToken_malformed_touches_cache :
    specStructurallyMalformed "x" = true ∧
    (VerifyIDToken ⟨"p", "https://securetoken.google.com/p", "p"⟩
        ⟨none, none, none, 0⟩ "x").1
      = .error "verify token: failed to parse or verify signature" ∧
    AuthEvent.cacheInit ∈ (VerifyIDToken ⟨"p", "https://securetoken.google.com/p", "p"⟩
        ⟨none, none, none, 0⟩ "x").2 := by
  refine ⟨by decide, rfl, ?_⟩
  simp [VerifyIDToken]

/-- Claim C3 (amended): only the empty token string is rejected before any
I/O: VerifyIDToken returns the "token is empty" error with an empty event
trace for the empty token, while for every non-empty token — structurally
malformed or not — the key cache is initialized (cacheInit occurs in the
trace) before any rejection by the jwt parser. -/
theorem verifyIDToken_empty_rejected_before_io (a : Authenticator) (env : VerifyEnv)
    (tok : String) (htok : tok ≠ "") :
    VerifyIDToken a env "" = (.error "token is empty", []) ∧
    AuthEvent.cacheInit ∈ (VerifyIDToken a env tok).2 := by
  refine ⟨rfl, ?_⟩
  obtain ⟨ce, ke, sc, now⟩ := env
  unfold VerifyIDToken
  rw [if_neg htok]
  cases ce with
  | some e => simp
  | none =>
    cases ke with
    | some e => simp
    | none =>
      cases sc with
      | none => simp
      | some c =>
        rcases hjv : jwtValidate a.issuer a.audience acceptableSkew now c with e | u <;>
          simp [hjv]

/-- Claim C3 witness: the amended statement applied to the concrete
non-empty malformed token "x" in a healthy environment. -/
theorem verifyIDToken_empty_rejected_before_io_witness :
    VerifyIDToken ⟨"p", "https://securetoken.google.com/p", "p"⟩
        ⟨none, none, none, 7⟩ "" = (.error "token is empty", []) ∧
    AuthEvent.cacheInit ∈ (VerifyIDToken ⟨"p", "https://securetoken.google.com/p", "p"⟩
        ⟨none, none, none, 7⟩ "x").2 := by
  exact verifyIDToken_empty_rejected_before_io
    ⟨"p", "https://securetoken.google.com/p", "p"⟩ ⟨none, none, none, 7⟩ "x" (by decide)

/-- Claim C5: with a healthy cache and a signature-valid token whose issuer
and audience match and whose not-before has passed, VerifyIDToken accepts a
token whose expiry lies 30 seconds in the past (inside the 60-second skew
applied symmetrically to expiry and not-before) and rejects one whose expiry
lies 90 seconds in the past with the expiry error. -/
theorem verifyIDToken_expiry_skew (a : Authenticator) (now : Int) (c c' : JWTClaims)
    (tok : String) (htok : tok ≠ "")
    (hiss : c.iss = a.issuer) (haud : c.aud = a.audience) (hnbf : c.nbf ≤ now)
    (hexp : c.exp = now - 30)
    (hiss' : c'.iss = a.issuer) (haud' : c'.aud = a.audience) (hnbf' : c'.nbf ≤ now)
    (hexp' : c'.exp = now - 90) :
    (VerifyIDToken a ⟨none, none, some c, now⟩ tok).1 = .ok (claimsOf c) ∧
    (VerifyIDToken a ⟨none, none, some c', now⟩ tok).1
      = .error "verify token: exp not satisfied" := by
  constructor
  · have hv : jwtValidate a.issuer a.audience acceptableSkew now c = .ok () := by
      unfold jwtValidate acceptableSkew
      rw [if_neg (by omega), if_neg (by omega), if_neg (by simp [hiss]),
        if_neg (by simp [haud])]
    unfold VerifyIDToken
    rw [if_neg htok]
    simp [hv]
  · have hv : jwtValidate a.issuer a.audience acceptableSkew now c'
        = .error "exp not satisfied" := by
      unfold jwtValidate acceptableSkew
      rw [if_pos (by omega)]
    unfold VerifyIDToken
    rw [if_neg htok]
    simp [hv]

/-- Claim C5 witness: the skew theorem at clock 1000 with expiries 970 and
910 and matching issuer/audience for project p. -/
theorem verifyIDToken_expiry_skew_witness :
    (VerifyIDToken ⟨"p", "https://securetoken.google.com/p", "p"⟩
        ⟨none, none, some ⟨"https://securetoken.google.com/p", "p", 970, 0, "u1",
          none, none, none⟩, 1000⟩ "t").1
      = .ok (claimsOf ⟨"https://securetoken.google.com/p", "p", 970, 0, "u1",
          none, none, none⟩) ∧
    (VerifyIDToken ⟨"p", "https://securetoken.google.com/p", "p"⟩
        ⟨none, none, some ⟨"https://securetoken.google.com/p", "p", 910, 0, "u1",
          none, none, none⟩, 1000⟩ "t").1
      = .error "verify token: exp not satisfied" := by
  exact verifyIDToken_expiry_skew ⟨"p", "https://securetoken.google.com/p", "p"⟩ 1000
    ⟨"https://securetoken.google.com/p", "p", 970, 0, "u1", none, none, none⟩
    ⟨"https://securetoken.google.com/p", "p", 910, 0, "u1", none, none, none⟩
    "t" (by decide) rfl rfl (by decide) (by decide) rfl rfl (by decide) (by decide)
end AuthM

namespace OnceM

theorem runners_append (a b : List CallerPhase) :
    runners (a ++ b) = runners a + runners b := by
  simp [runners, List.countP_append]

theorem runners_cons_ns (l : List CallerPhase) :
    runners (CallerPhase.notStarted :: l) = runners l := by
  simp [runners, List.countP_cons]

theorem runners_cons_run (l : List CallerPhase) :
    runners (CallerPhase.runnerP :: l) = runners l + 1 := by
  simp [runners, List.countP_cons]

theorem runners_cons_blk (l : List CallerPhase) :
    runners (CallerPhase.blocked :: l) = runners l := by
  simp [runners, List.countP_cons]

theorem runners_cons_fin (r : Option String) (l : List CallerPhase) :
    runners (CallerPhase.finished r :: l) = runners l := by
  simp [runners, List.countP_cons]

theorem Inv_initSys : Inv initSys := by
  refine ⟨by decide, by decide, by decide, by decide, by decide,
    fun r hr => absurd hr (List.not_mem_nil _)⟩

theorem Inv_step {s t : OnceSys} (hs : Inv s) (hst : OnceStep s t) : Inv t := by
  obtain ⟨h1, h2, hidle, hrun, hdone, hfin⟩ := hs
  cases hst
  case spawn =>
    refine ⟨h1, h2, ?_, ?_, ?_, ?_⟩
    · intro h
      obtain ⟨a, b, c⟩ := hidle h
      exact ⟨a, by rw [runners_append, b]; rfl, c⟩
    · intro h
      obtain ⟨a, b, c⟩ := hrun h
      exact ⟨a, by rw [runners_append, b]; rfl, c⟩
    · intro h
      rw [runners_append, hdone h]
      rfl
    · intro r hr
      rcases List.mem_append.mp hr with hr | hr
      · exact hfin r hr
      · simp at hr
  case enter l1 l2 honce hcal =>
    obtain ⟨hi0, hr0, hc0⟩ := hidle honce
    rw [hcal, runners_append, runners_cons_ns] at hr0
    refine ⟨h1, h2, ?_, ?_, ?_, ?_⟩
    · intro h
      simp at h
    · intro _
      exact ⟨hi0, by rw [runners_append, runners_cons_run]; omega, hc0⟩
    · intro h
      simp at h
    · intro r hr
      simp only [List.mem_append, List.mem_cons] at hr
      rcases hr with hr | hr | hr
      · have hc := (hfin r (hcal ▸ List.mem_append_left _ hr)).1
        rw [honce] at hc
        exact absurd hc (by decide)
      · exact absurd hr (by simp)
      · have hc := (hfin r (hcal ▸ List.mem_append_right _ (List.mem_cons_of_mem _ hr))).1
        rw [honce] at hc
        exact absurd hc (by decide)
  case enterBlocked l1 l2 honce hcal =>
    obtain ⟨hi0, hr1, hc0⟩ := hrun honce
    rw [hcal, runners_append, runners_cons_ns] at hr1
    refine ⟨h1, h2, ?_, ?_, ?_, ?_⟩
    · intro h
      rw [honce] at h
      exact absurd h (by decide)
    · intro _
      exact ⟨hi0, by rw [runners_append, runners_cons_blk]; omega, hc0⟩
    · intro h
      rw [honce] at h
      exact absurd h (by decide)
    · intro r hr
      simp only [List.mem_append, List.mem_cons] at hr
      rcases hr with hr | hr | hr
      · have hc := (hfin r (hcal ▸ List.mem_append_left _ hr)).1
        rw [honce] at hc
        exact absurd hc (by decide)
      · exact absurd hr (by simp)
      · have hc := (hfin r (hcal ▸ List.mem_append_right _ (List.mem_cons_of_mem _ hr))).1
        rw [honce] at hc
        exact absurd hc (by decide)
  case enterDone l1 l2 honce hcal =>
    have hr0 := hdone honce
    rw [hcal, runners_append, runners_cons_ns] at hr0
    refine ⟨h1, h2, ?_, ?_, ?_, ?_⟩
    · intro h
      rw [honce] at h
      exact absurd h (by decide)
    · intro h
      rw [honce] at h
      exact absurd h (by decide)
    · intro _
      rw [runners_append, runners_cons_fin]
      omega
    · intro r hr
      simp only [List.mem_append, List.mem_cons] at hr
      rcases hr with hr | hr | hr
      · exact hfin r (hcal ▸ List.mem_append_left _ hr)
      · cases hr
        exact ⟨honce, rfl⟩
      · exact hfin r (hcal ▸ List.mem_append_right _ (List.mem_cons_of_mem _ hr))
  case body l1 l2 regErr fetchErr hcal =>
    have hrpos : 1 ≤ runners s.callers := by
      rw [hcal, runners_append, runners_cons_run]
      omega
    have honce : s.once = .running := by
      cases h : s.once
      · obtain ⟨_, hr, _⟩ := hidle h
        omega
      · rfl
      · have := hdone h
        omega
    obtain ⟨hi0, hr1, _⟩ := hrun honce
    have hsplit : runners l1 = 0 ∧ runners l2 = 0 := by
      rw [hcal, runners_append, runners_cons_run] at hr1
      omega
    refine ⟨by show s.initRuns + 1 ≤ 1; omega, ?_, ?_, ?_, ?_, ?_⟩
    · show s.fetchCalls + (if regErr = none then 1 else 0) ≤ s.initRuns + 1
      have hf0 : s.fetchCalls = 0 := by omega
      rw [hf0]
      split <;> omega
    · intro h
      simp at h
    · intro h
      simp at h
    · intro _
      rw [runners_append, runners_cons_fin]
      omega
    · intro r hr
      simp only [List.mem_append, List.mem_cons] at hr
      rcases hr with hr | hr | hr
      · have hc := (hfin r (hcal ▸ List.mem_append_left _ hr)).1
        rw [honce] at hc
        exact absurd hc (by decide)
      · cases hr
        exact ⟨rfl, rfl⟩
      · have hc := (hfin r (hcal ▸ List.mem_append_right _ (List.mem_cons_of_mem _ hr))).1
        rw [honce] at hc
        exact absurd hc (by decide)
  case wake l1 l2 honce hcal =>
    have hr0 := hdone honce
    rw [hcal, runners_append, runners_cons_blk] at hr0
    refine ⟨h1, h2, ?_, ?_, ?_, ?_⟩
    · intro h
      rw [honce] at h
      exact absurd h (by decide)
    · intro h
      rw [honce] at h
      exact absurd h (by decide)
    · intro _
      rw [runners_append, runners_cons_fin]
      omega
    · intro r hr
      simp only [List.mem_append, List.mem_cons] at hr
      rcases hr with hr | hr | hr
      · exact hfin r (hcal ▸ List.mem_append_left _ hr)
      · cases hr
        exact ⟨honce, rfl⟩
      · exact hfin r (hcal ▸ List.mem_append_right _ (List.mem_cons_of_mem _ hr))

theorem Inv_reachable {s : OnceSys} (h : OnceReachable s) : Inv s := by
  induction h with
  | init => exact Inv_initSys
  | step _ hst ih => exact Inv_step ih hst

/-- Claim C4: across every reachable interleaving of VerifyIDToken /
ensureCache calls against one Authenticator (with its single fixed key-set
URL), the cache-initialization body (cache creation, URL registration and
first fetch) executes at most once per process, at most one underlying
network fetch ever occurs, and a concurrent caller returns from ensureCache
only once that first initialization has completed or failed: no caller is
finished before the Once guard is done. -/
theorem ensureCache_single_flight (s : OnceSys) (h : OnceReachable s) :
    s.initRuns ≤ 1 ∧ s.fetchCalls ≤ 1 ∧
    ∀ r, CallerPhase.finished r ∈ s.callers → s.once = .done := by
  have hi := Inv_reachable h
  exact ⟨hi.1, le_trans hi.2.1 hi.1, fun r hr => (hi.2.2.2.2.2 r hr).1⟩

/-- Claim C4 witness: the single-flight theorem applied at the concrete
reachable state in which one caller ran the initialization to completion and
a second caller then returned immediately from the completed Once. -/
theorem ensureCache_single_flight_witness :
    (⟨.done, 1, 1, none, [.finished none, .finished none]⟩ : OnceSys).initRuns ≤ 1 ∧
    (⟨.done, 1, 1, none, [.finished none, .finished none]⟩ : OnceSys).fetchCalls ≤ 1 ∧
    ∀ r, CallerPhase.finished r ∈
        (⟨.done, 1, 1, none, [.finished none, .finished none]⟩ : OnceSys).callers →
      (⟨.done, 1, 1, none, [.finished none, .finished none]⟩ : OnceSys).once = .done := by
  apply ensureCache_single_flight
  have h0 : OnceReachable initSys := .init
  have h1 : OnceReachable ⟨.idle, 0, 0, none, [.notStarted]⟩ :=
    h0.step (.spawn _)
  have h2 : OnceReachable ⟨.running, 0, 0, none, [.runnerP]⟩ :=
    h1.step (.enter _ [] [] rfl rfl)
  have h3 : OnceReachable ⟨.done, 1, 1, none, [.finished none]⟩ :=
    h2.step (.body _ [] [] none none rfl)
  have h4 : OnceReachable ⟨.done, 1, 1, none, [.finished none, .notStarted]⟩ :=
    h3.step (.spawn _)
  exact h4.step (.enterDone _ [.finished none] [] rfl rfl)

/-- Claim C10: in every reachable state whose stored cacheErr is an error
(the first initialization failed at registration or at the first fetch),
every caller that has returned from ensureCache got exactly that stored
error, at most the one initial fetch was ever attempted, and every further
step of the process preserves the stored error — the once-guard is
consumed, so no later VerifyIDToken call can succeed even after the network
recovers. -/
theorem ensureCache_failure_is_sticky (s : OnceSys) (h : OnceReachable s)
    (e : String) (he : s.cacheErr = some e) :
    (∀ r, CallerPhase.finished r ∈ s.callers → r = some e) ∧
    s.fetchCalls ≤ 1 ∧
    ∀ t, OnceStep s t → t.cacheErr = some e := by
  have hi := Inv_reachable h
  obtain ⟨h1, h2, hidle, hrun, hdone, hfin⟩ := hi
  have hdone' : s.once = .done := by
    cases ho : s.once
    · rw [(hidle ho).2.2] at he
      exact absurd he (by simp)
    · rw [(hrun ho).2.2] at he
      exact absurd he (by simp)
    · rfl
  refine ⟨fun r hr => by rw [(hfin r hr).2, he], le_trans h2 h1, ?_⟩
  intro t hst
  cases hst
  case spawn => exact he
  case enter l1 l2 honce hcal =>
    rw [hdone'] at honce
    exact absurd honce (by simp)
  case enterBlocked l1 l2 honce hcal => exact he
  case enterDone l1 l2 honce hcal => exact he
  case body l1 l2 regErr fetchErr hcal =>
    have hz := hdone hdone'
    rw [hcal, runners_append, runners_cons_run] at hz
    omega
  case wake l1 l2 honce hcal => exact he

/-- Claim C10 witness: the sticky-failure theorem applied at the concrete
reachable state in which the initialization's registration failed with
"regfail": the finished caller carries that error and no fetch happened. -/
theorem ensureCache_failure_is_sticky_witness :
    (∀ r, CallerPhase.finished r ∈
        (⟨.done, 1, 0, some "regfail", [.finished (some "regfail")]⟩ : OnceSys).callers →
      r = some "regfail") ∧
    (⟨.done, 1, 0, some "regfail", [.finished (some "regfail")]⟩ : OnceSys).fetchCalls ≤ 1 ∧
    ∀ t, OnceStep (⟨.done, 1, 0, some "regfail", [.finished (some "regfail")]⟩ : OnceSys) t →
      t.cacheErr = some "regfail" := by
  apply ensureCache_failure_is_sticky _ _ "regfail" rfl
  have h0 : OnceReachable initSys := .init
  have h1 : OnceReachable ⟨.idle, 0, 0, none, [.notStarted]⟩ :=
    h0.step (.spawn _)
  have h2 : OnceReachable ⟨.running, 0, 0, none, [.runnerP]⟩ :=
    h1.step (.enter _ [] [] rfl rfl)
  exact h2.step (.body _ [] [] (some "regfail") none rfl)

end OnceM
